import Mathlib

/-!
Verification of the attribution extraction engine of the
`etiquetador-de-noticias` repository (`tjtool/tjtool.py`).

The Python code is shallowly embedded below.  Strings are Lean `String`s
(lists of characters); Python substring containment (`w1 in w2`) is embedded
through the same first-occurrence search that `str.find` performs.  The
linguistic analysis provider (`pattern.es.parsetree`, spaCy NER) is an
external collaborator: a parsed document is modelled as a list of sentences,
each carrying its raw string, its tokens (surface string, POS tag, lemma,
dependency role and governing-verb lemma of the token's chunk) and, for the
proximity strategy, the recognized named-entity spans `(text, label)`.
The pattern matcher (`pattern.search`) is likewise external; following the
specification (§4.2) its two patterns are modelled as: a single token whose
surface string carries the taxonomy tag, resp. maximal runs of consecutive
proper-noun (`NNP`) tokens whose surface string is not tagged `LOCATION`.
-/

/-- Character-list prefix test, the primitive under `str.find`. -/
def pfx : List Char → List Char → Bool
  | [], _ => true
  | _ :: _, [] => false
  | a :: as, b :: bs => a == b && pfx as bs

/-- Embeds CPython `str.find` scanning: first character index at which `pat`
occurs in the remaining haystack (offset by `i`), `-1` when absent. -/
def findAux (pat : List Char) : List Char → Nat → Int
  | [], i => if pat.isEmpty then (i : Int) else -1
  | c :: t, i => if pfx pat (c :: t) then (i : Int) else findAux pat t (i + 1)

/-- Embeds `txt.find(pat)` from `SpacyReporterExtractor._get_distance`:
character index of the first occurrence of `pat` in `txt`, `-1` if none. -/
def strFind (txt pat : String) : Int :=
  findAux pat.data txt.data 0

/-- Embeds Python's substring containment `w1 in w2`
(as used by `remove_duplicates`). -/
def pyIn (w1 w2 : String) : Bool :=
  0 ≤ strFind w2 w1

/-- A taxonomy entry: term and category tag, as created by
`taxonomy.append(term, type=tag)`. -/
structure TaxEntry where
  term : String
  tag : String
deriving DecidableEq, Repr

/-- The process-wide taxonomy of `pattern.search`. -/
abbrev Taxonomy := List TaxEntry

/-- The taxonomy classifies `w` under `tag`.  The pattern matcher is external
(`pattern.search`); per spec §4.2/§9 we fix matching on the surface form. -/
def taxHasTag (tax : Taxonomy) (w tag : String) : Bool :=
  tax.any (fun e => e.term == w && e.tag == tag)

/-- Embeds the membership test `lemma in taxonomy` (any tag). -/
def taxContains (tax : Taxonomy) (w : String) : Bool :=
  tax.any (fun e => e.term == w)

/-- A token of an analyzed sentence, as delivered by the external
linguistic analysis provider (`pattern.es.parsetree`): surface string,
POS tag, lemma, dependency role of its chunk (`w.chunk.role`, nullable) and
the lemma of the verb governing its chunk (`w.chunk.verb.head.lemma`,
absent when the chunk has no attached verb). -/
structure Tok where
  string : String
  tag : String
  lemm : String
  chunkRole : Option String
  chunkVerbLemma : Option String
deriving DecidableEq, Repr

/-- A `pattern.search.Word` as collected into the extractor's lists: only its
surface string and its index are consumed downstream (`_pack_list`). -/
structure Word where
  string : String
  index : Nat
deriving DecidableEq, Repr

/-- An analyzed sentence: id, raw string, tokens (token `i` of the sentence
has in-sentence index `i`), and — for the proximity strategy — the named
entity spans `(text, label)` that spaCy recognizes on its raw string. -/
structure Sentence where
  id : Nat
  string : String
  toks : List Tok
  ents : List (String × String)
deriving DecidableEq, Repr

/-- Embeds `' '.join` over the strings of a packed run. -/
def joinSpace : List String → String
  | [] => ""
  | [s] => s
  | s :: t :: rest => s ++ " " ++ joinSpace (t :: rest)

/-- The grouping done by `groupby(enumerate(data), lambda i_w: i_w[0]-i_w[1].index)`
in `_pack_list`: split into maximal runs in which each successor's `index` is
the predecessor's `index + 1` (constant `position - index` key). -/
def splitRuns : List Word → List (List Word)
  | [] => []
  | w :: ws =>
    match splitRuns ws with
    | [] => [[w]]
    | [] :: rest => [w] :: [] :: rest
    | (v :: vs) :: rest =>
      if v.index == w.index + 1 then (w :: v :: vs) :: rest
      else [w] :: (v :: vs) :: rest

/-- Embeds `ReporterExtractor._pack_list`: words with consecutive indices are
joined with a single space; an index gap starts a new name. -/
def packList (data : List Word) : List String :=
  (splitRuns data).map (fun run => joinSpace (run.map Word.string))

/-- Embeds `ReporterExtractor.remove_duplicates`: drop `w1` when some other
distinct name of the list contains it (`w1 in w2` on
`set(name_list) - set([w1])`), then `list(set(...))` the survivors.
The Python result order is unspecified (a set); we fix first-occurrence
order, which is equal as a set. -/
def removeDuplicates (nameList : List String) : List String :=
  (nameList.filter
    (fun w1 => !(nameList.any (fun w2 => (w2 != w1) && pyIn w1 w2)))).dedup

/-- A token matches the trigger pattern `RPTVRB|según` of
`search('RPTVRB|según', s)`: its surface string is tagged `RPTVRB` in the
taxonomy, or it is the literal word `según`. -/
def isTrigger (tax : Taxonomy) (t : Tok) : Bool :=
  taxHasTag tax t.string "RPTVRB" || t.string == "según"

/-- Embeds `search('RPTVRB|según', s)`: the matching tokens of a sentence. -/
def searchTrigger (tax : Taxonomy) (s : Sentence) : List Tok :=
  s.toks.filter (isTrigger tax)

/-- Embeds `[s for s in self.__tree if search('RPTVRB|según', s)]`, the
sentence selection shared by both strategies. -/
def selectedSentences (tax : Taxonomy) (doc : List Sentence) : List Sentence :=
  doc.filter (fun s => !(searchTrigger tax s).isEmpty)

/-- A token matches the candidate pattern `!LOCATION|NNP+` (per spec §4.2:
a proper-noun token not tagged `LOCATION`). -/
def isCandidate (tax : Taxonomy) (t : Tok) : Bool :=
  t.tag == "NNP" && !taxHasTag tax t.string "LOCATION"

/-- The in-sentence indices of the candidate tokens, in order.  Iterating the
words of all (maximal-run) matches of `!LOCATION|NNP+` visits exactly these
tokens in sentence order. -/
def candIdxs (tax : Taxonomy) (s : Sentence) : List Nat :=
  (List.range s.toks.length).filter (fun i => (s.toks[i]?).any (isCandidate tax))

/-- Embeds `ReporterExtractor._is_composed_noun` for the token at index `i`:
`word.previous()` and `word.previous().previous()` exist, the former's
string is one of `de`, `en`, `del`, and the latter is tagged `NNP`. -/
def isComposedNoun (s : Sentence) (i : Nat) : Bool :=
  if 2 ≤ i then
    match s.toks[i - 1]?, s.toks[i - 2]? with
    | some p, some pp =>
      (p.string == "de" || p.string == "en" || p.string == "del") && pp.tag == "NNP"
    | _, _ => false
  else false

/-- Embeds `w.chunk.role is not None and w.chunk.verb.head.lemma in taxonomy`,
the reporter condition of `ReporterExtractor._extract_reporters`. -/
def isReporterTok (tax : Taxonomy) (t : Tok) : Bool :=
  t.chunkRole.isSome && t.chunkVerbLemma.any (fun l => taxContains tax l)

/-- What one candidate token appends to its destination list: first
`w.previous()` when `_is_composed_noun(w)` holds, then `w` itself. -/
def candContribution (s : Sentence) (i : Nat) (t : Tok) : List Word :=
  (if isComposedNoun s i then
    match s.toks[i - 1]? with
    | some p => [⟨p.string, i - 1⟩]
    | none => []
  else []) ++ [⟨t.string, i⟩]

/-- Embeds the per-sentence body of `ReporterExtractor._extract_reporters`:
each candidate token is appended (with its composed-noun prefix) to the
reporters list when the reporter condition holds, to the entities list
otherwise.  Returns (reporters, entities) collected from this sentence. -/
def roleExtractSentence (tax : Taxonomy) (s : Sentence) : List Word × List Word :=
  (candIdxs tax s).foldl
    (fun acc i =>
      match s.toks[i]? with
      | some t =>
        if isReporterTok tax t then (acc.1 ++ candContribution s i t, acc.2)
        else (acc.1, acc.2 ++ candContribution s i t)
      | none => acc)
    ([], [])

/-- Embeds `ReporterExtractor._extract_reporters`: loop over the selected
sentences, accumulating reporters and entities. -/
def roleExtract (tax : Taxonomy) (doc : List Sentence) : List Word × List Word :=
  (selectedSentences tax doc).foldl
    (fun acc s =>
      let p := roleExtractSentence tax s
      (acc.1 ++ p.1, acc.2 ++ p.2))
    ([], [])

/-- The words of a sentence matched by the `SOURCE` pattern: each token whose
surface string is tagged `SOURCE` in the taxonomy, with its index. -/
def sourceToks (tax : Taxonomy) (s : Sentence) : List Word :=
  (List.range s.toks.length).filterMap
    (fun i =>
      match s.toks[i]? with
      | some t =>
        if taxHasTag tax t.string "SOURCE" then some (⟨t.string, i⟩ : Word)
        else none
      | none => none)

/-- Embeds `_extract_sources` (both classes): for every sentence of the tree —
selected or not — collect each token matched by the `SOURCE` pattern. -/
def extractSources (tax : Taxonomy) (doc : List Sentence) : List Word :=
  doc.foldl (fun acc s => acc ++ sourceToks tax s) []

/-- Embeds `_clean` (both classes): the characters `" ' ” “ ¿ ? ! ¡` are
removed and `/ ─` are replaced by a space.  The sequential single-character
`str.replace` calls amount to this character-wise map. -/
def cleanText (text : String) : String :=
  ⟨text.data.filterMap
    (fun c =>
      if c ∈ ['"', '\'', '”', '“', '¿', '?', '!', '¡'] then none
      else if c ∈ ['/', '─'] then some ' ' else some c)⟩

/-- The per-`parse` working state of `ReporterExtractor`: the three word
lists `__sources`, `__reporters`, `__entities`.  (`get_reporters` also
stores `reporters_out`, but no other method of this class reads it.) -/
structure RoleState where
  reporters : List Word
  entities : List Word
  sources : List Word
deriving Repr

/-- Embeds `ReporterExtractor.parse` from the analyzed document on: the three
lists are rebuilt from scratch (the previous state is discarded). -/
def roleParseFrom (_st : RoleState) (tax : Taxonomy) (doc : List Sentence) : RoleState :=
  let p := roleExtract tax doc
  { reporters := p.1, entities := p.2, sources := extractSources tax doc }

/-- `ReporterExtractor.parse` on raw text: clean, analyze (the linguistic
analysis provider `parsetree` is external, passed as `analyze`), extract. -/
def roleParseText (analyze : String → List Sentence) (st : RoleState)
    (tax : Taxonomy) (text : String) : RoleState :=
  roleParseFrom st tax (analyze (cleanText text))

/-- Embeds `ReporterExtractor.get_reporters`: pack, then remove duplicates. -/
def roleGetReporters (st : RoleState) : List String :=
  removeDuplicates (packList st.reporters)

/-- Embeds `ReporterExtractor.get_entities`:
`list(set(pack(entities)) - set(pack(reporters)))`.  The Python result order
is unspecified (a set); we fix first-occurrence order, equal as a set. -/
def roleGetEntities (st : RoleState) : List String :=
  ((packList st.entities).filter
    (fun x => decide (x ∉ packList st.reporters))).dedup

/-- Embeds `ReporterExtractor.get_sources`: pack only, no deduplication. -/
def roleGetSources (st : RoleState) : List String :=
  packList st.sources

/-- Embeds `SpacyReporterExtractor._get_distance(w1, w2, txt)`:
`txt.find(w2) - txt.find(w1)` (signed substring-position subtraction). -/
def getDistance (w1 w2 txt : String) : Int :=
  strFind txt w2 - strFind txt w1

/-- The loop state of the NER loop inside
`SpacyReporterExtractor._extract_reporters`: `shortest_dist` (`np.inf`
modelled as `none`), `shortest_word` (`[]` modelled as `none`), the `dist` of
the most recently processed entity (the loop variable that survives the
loop), and the entity words collected so far. -/
structure ProxAcc where
  shortestDist : Option Nat
  shortestWord : Option Word
  lastDist : Option Int
  ents : List Word
deriving Repr

/-- One iteration of the NER loop: compute `dist`, append the entity to the
entities list (`tag=None, index=s.id`), and—when the label is `PER` or `ORG`
and `abs(dist)` beats the current shortest—record it as `shortest_word`. -/
def proxStep (verb sStr : String) (sid : Nat) (acc : ProxAcc)
    (ent : String × String) : ProxAcc :=
  let dist := getDistance verb ent.1 sStr
  let ents := acc.ents ++ [⟨ent.1, sid⟩]
  if (ent.2 == "PER" || ent.2 == "ORG")
      && (match acc.shortestDist with
          | none => true
          | some d => dist.natAbs < d) then
    { shortestDist := some dist.natAbs, shortestWord := some ⟨ent.1, sid⟩,
      lastDist := some dist, ents := ents }
  else
    { acc with lastDist := some dist, ents := ents }

/-- Embeds the per-sentence body of
`SpacyReporterExtractor._extract_reporters`: run the NER loop, then append
`shortest_word` to the reporters *when the final guard
`shortest_word and abs(dist) < self._max_dist` holds* — note the guard tests
`abs(dist)` of the **last** entity processed by the loop, not
`shortest_dist`.  Returns (reporters from this sentence, entity words). -/
def spacyExtractSentence (tax : Taxonomy) (s : Sentence) : List Word × List Word :=
  match (searchTrigger tax s).head? with
  | none => ([], [])
  | some vt =>
    let acc := s.ents.foldl (proxStep vt.string s.string s.id)
      ⟨none, none, none, []⟩
    let reps :=
      match acc.shortestWord, acc.lastDist with
      | some w, some d => if d.natAbs < 100 then [w] else []
      | _, _ => []
    (reps, acc.ents)

/-- Embeds `SpacyReporterExtractor._extract_reporters` over the selected
sentences. -/
def spacyExtract (tax : Taxonomy) (doc : List Sentence) : List Word × List Word :=
  (selectedSentences tax doc).foldl
    (fun acc s =>
      let p := spacyExtractSentence tax s
      (acc.1 ++ p.1, acc.2 ++ p.2))
    ([], [])

/-- The state of a `SpacyReporterExtractor`: the three per-`parse` word lists
plus the `reporters_out` attribute, which does not exist on a fresh instance
(`none`), is only ever assigned by `get_reporters`, and is read by
`get_entities`. -/
structure SpacyState where
  reporters : List Word
  entities : List Word
  sources : List Word
  reportersOut : Option (List String)
deriving Repr

/-- A freshly constructed `SpacyReporterExtractor`: empty lists and no
`reporters_out` attribute yet. -/
def spacyInit : SpacyState :=
  { reporters := [], entities := [], sources := [], reportersOut := none }

/-- Embeds `SpacyReporterExtractor.parse` from the analyzed document on: the
three lists are rebuilt from scratch; `reporters_out` is untouched. -/
def spacyParseFrom (st : SpacyState) (tax : Taxonomy) (doc : List Sentence) :
    SpacyState :=
  let p := spacyExtract tax doc
  { reporters := p.1, entities := p.2, sources := extractSources tax doc,
    reportersOut := st.reportersOut }

/-- `SpacyReporterExtractor.parse` on raw text (analysis provider external). -/
def spacyParseText (analyze : String → List Sentence) (st : SpacyState)
    (tax : Taxonomy) (text : String) : SpacyState :=
  spacyParseFrom st tax (analyze (cleanText text))

/-- Embeds `SpacyReporterExtractor.get_reporters`: deduplicate the reporter
strings (no packing here) and store them in `reporters_out`. -/
def spacyGetReporters (st : SpacyState) : SpacyState × List String :=
  let out := removeDuplicates (st.reporters.map Word.string)
  ({ st with reportersOut := some out }, out)

/-- Embeds `SpacyReporterExtractor.get_entities`:
`list(set(entities_out) - set(self.reporters_out))`.  Reading
`self.reporters_out` on an instance where `get_reporters` has never run
raises `AttributeError`, modelled as `none`. -/
def spacyGetEntities (st : SpacyState) : Option (List String) :=
  match st.reportersOut with
  | none => none
  | some rout =>
    some (((st.entities.map Word.string).filter
      (fun x => decide (x ∉ rout))).dedup)

/-- Embeds `SpacyReporterExtractor.get_sources` (packed, no dedup). -/
def spacyGetSources (st : SpacyState) : List String :=
  packList st.sources

/-- The three fixed term lists loaded by `_create_taxonomy`, in load order:
reported-speech verbs under `RPTVRB`, sources under `SOURCE`, locations
under `LOCATION`. -/
def loadTerms (verbs srcs locs : List String) : List TaxEntry :=
  verbs.map (fun w => ⟨w, "RPTVRB"⟩) ++ srcs.map (fun w => ⟨w, "SOURCE"⟩)
    ++ locs.map (fun w => ⟨w, "LOCATION"⟩)

/-- The attribute state relevant to `_create_taxonomy` on one extractor
object: the instance attribute `__has_taxonomy` (`none` when the attribute
has never been assigned on this instance, in which case Python attribute
lookup falls back to the class attribute, which is `False` and is never
reassigned — `self.__has_taxonomy = True` creates an instance attribute). -/
structure ExtractorObj where
  hasTaxonomyInst : Option Bool
deriving Repr

/-- Python's read of `self.__has_taxonomy`: instance attribute if present,
else the class attribute `False`. -/
def readHasTaxonomy (o : ExtractorObj) : Bool :=
  o.hasTaxonomyInst.getD false

/-- Embeds `_create_taxonomy` (identical in both extractor classes): when the
flag reads `False`, append the three term lists to the process-wide taxonomy
and set the (instance) flag. -/
def createTaxonomy (o : ExtractorObj) (tax : Taxonomy)
    (verbs srcs locs : List String) : ExtractorObj × Taxonomy :=
  if readHasTaxonomy o then (o, tax)
  else ({ o with hasTaxonomyInst := some true }, tax ++ loadTerms verbs srcs locs)

/-- Embeds extractor construction (`__init__` calls `_create_taxonomy`) on a
brand-new object, whose instance dictionary holds no `__has_taxonomy` yet. -/
def initExtractor (tax : Taxonomy) (verbs srcs locs : List String) :
    ExtractorObj × Taxonomy :=
  createTaxonomy ⟨none⟩ tax verbs srcs locs

/-- `pfx` decides list-prefix. -/
theorem pfx_iff : ∀ (p s : List Char), pfx p s = true ↔ p <+: s := by
  intro p
  induction p with
  | nil =>
    intro s
    simp [pfx]
  | cons a as ih =>
    intro s
    cases s with
    | nil => simp [pfx]
    | cons b bs =>
      simp [pfx, Bool.and_eq_true, beq_iff_eq, ih, List.cons_prefix_cons]

/-- `findAux` returns a non-negative index exactly when the pattern occurs
somewhere in the haystack (prefix of one of its suffixes). -/
theorem findAux_nonneg :
    ∀ (pat hay : List Char) (i : Nat),
      0 ≤ findAux pat hay i ↔ ∃ t, t <:+ hay ∧ pat <+: t := by
  intro pat hay
  induction hay with
  | nil =>
    intro i
    by_cases hp : pat = []
    · subst hp
      constructor
      · intro _
        exact ⟨[], List.suffix_rfl, List.nil_prefix⟩
      · intro _
        simp [findAux]
    · constructor
      · intro h
        have hne : findAux pat [] i = -1 := by
          simp [findAux, List.isEmpty_iff, hp]
        rw [hne] at h
        omega
      · rintro ⟨t, ht, hpre⟩
        have ht' : t = [] := List.suffix_nil.mp ht
        subst ht'
        exact absurd (List.prefix_nil.mp hpre) hp
  | cons c tl ih =>
    intro i
    unfold findAux
    cases h : pfx pat (c :: tl) with
    | true =>
      simp only [h, if_true]
      constructor
      · intro _
        exact ⟨c :: tl, List.suffix_rfl, (pfx_iff _ _).mp h⟩
      · intro _
        exact Int.natCast_nonneg i
    | false =>
      simp only [h, Bool.false_eq_true, if_false]
      rw [ih (i + 1)]
      constructor
      · rintro ⟨t, ht, hpre⟩
        exact ⟨t, ht.trans (List.suffix_cons c tl), hpre⟩
      · rintro ⟨t, ht, hpre⟩
        rcases List.suffix_cons_iff.mp ht with h1 | h2
        · subst h1
          rw [(pfx_iff _ _).mpr hpre] at h
          exact absurd h (by simp)
        · exact ⟨t, h2, hpre⟩

/-- A list is an interior sublist of another exactly when it is a prefix of
one of its suffixes. -/
theorem sub_decomp (pat hay : List Char) :
    pat <:+: hay ↔ ∃ t, t <:+ hay ∧ pat <+: t := by
  constructor
  · rintro ⟨u, v, rfl⟩
    exact ⟨pat ++ v, ⟨u, (List.append_assoc u pat v).symm⟩, ⟨v, rfl⟩⟩
  · rintro ⟨t, ⟨q, rfl⟩, ⟨r, rfl⟩⟩
    exact ⟨q, r, by simp [List.append_assoc]⟩

/-- The embedded Python containment test `w1 in w2` decides substring-ness. -/
theorem pyIn_iff (w1 w2 : String) :
    pyIn w1 w2 = true ↔ w1.data <:+: w2.data := by
  unfold pyIn strFind
  rw [decide_eq_true_iff, findAux_nonneg, sub_decomp]

/-- Membership in `remove_duplicates`: a name survives exactly when no other
distinct name of the input contains it as a substring. -/
theorem mem_removeDuplicates {l : List String} {x : String} :
    x ∈ removeDuplicates l
      ↔ x ∈ l ∧ ¬ ∃ y ∈ l, y ≠ x ∧ x.data <:+: y.data := by
  unfold removeDuplicates
  rw [List.mem_dedup, List.mem_filter]
  constructor
  · rintro ⟨hx, hcond⟩
    refine ⟨hx, ?_⟩
    rintro ⟨y, hy, hne, hsub⟩
    have hany : l.any (fun w2 => (w2 != x) && pyIn x w2) = true :=
      List.any_eq_true.mpr ⟨y, hy, by
        rw [Bool.and_eq_true, bne_iff_ne]
        exact ⟨hne, (pyIn_iff x y).mpr hsub⟩⟩
    rw [hany] at hcond
    simp at hcond
  · rintro ⟨hx, hnone⟩
    refine ⟨hx, ?_⟩
    by_contra hc
    have hany : l.any (fun w2 => (w2 != x) && pyIn x w2) = true := by
      revert hc
      cases l.any (fun w2 => (w2 != x) && pyIn x w2) <;> simp
    rcases List.any_eq_true.mp hany with ⟨y, hy, hcond2⟩
    rw [Bool.and_eq_true, bne_iff_ne] at hcond2
    exact hnone ⟨y, hy, hcond2.1, (pyIn_iff x y).mp hcond2.2⟩

/-- Survivors of `remove_duplicates` come from the input list. -/
theorem removeDuplicates_sub {l : List String} {x : String}
    (h : x ∈ removeDuplicates l) : x ∈ l :=
  (mem_removeDuplicates.mp h).1

/-- The output of `remove_duplicates` holds no exact duplicates. -/
theorem removeDuplicates_nodup (l : List String) :
    (removeDuplicates l).Nodup :=
  List.nodup_dedup _

/-- No element of the output of `remove_duplicates` is a substring of a
distinct output element. -/
theorem removeDuplicates_no_sub {l : List String} {x y : String}
    (hx : x ∈ removeDuplicates l) (hy : y ∈ removeDuplicates l)
    (hne : x ≠ y) : ¬ x.data <:+: y.data := by
  intro hsub
  rcases mem_removeDuplicates.mp hx with ⟨_, hnone⟩
  exact hnone ⟨y, removeDuplicates_sub hy, Ne.symm hne, hsub⟩

/-- Flattening the runs of `_pack_list`'s grouping gives back the input:
the grouping only splits, never reorders or drops. -/
theorem splitRuns_flatten : ∀ (data : List Word), (splitRuns data).flatten = data := by
  intro data
  induction data with
  | nil => rfl
  | cons w ws ih =>
    unfold splitRuns
    cases h : splitRuns ws with
    | nil =>
      rw [h] at ih
      simp at ih
      simp [ih]
    | cons r rest =>
      cases r with
      | nil =>
        rw [h] at ih
        simp at ih
        simp [ih]
      | cons v vs =>
        rw [h] at ih
        by_cases hidx : v.index = w.index + 1
        · simp [hidx]
          simpa using ih
        · have : (v.index == w.index + 1) = false := by
            simp [hidx]
          simp [this]
          simpa using ih

/-- Every collected word sits in one of the runs of `_pack_list`. -/
theorem mem_splitRuns_of_mem {data : List Word} {w : Word} (h : w ∈ data) :
    ∃ run ∈ splitRuns data, w ∈ run := by
  rw [← splitRuns_flatten data] at h
  exact List.mem_flatten.mp h

/-- `x` occurs inside `k ++ x ++ ...`-shaped lists: closure of interior
sublists under appending on the left. -/
theorem sub_app_left {x m k : List Char} (h : x <:+: m) : x <:+: k ++ m := by
  rcases h with ⟨u, v, rfl⟩
  exact ⟨k ++ u, v, by simp [List.append_assoc]⟩

/-- Closure of interior sublists under appending on the right. -/
theorem sub_app_right {x m k : List Char} (h : x <:+: m) : x <:+: m ++ k := by
  rcases h with ⟨u, v, rfl⟩
  exact ⟨u, v ++ k, by simp [List.append_assoc]⟩

/-- Each string of a run occurs inside the space-joined run. -/
theorem mem_joinSpace_sub :
    ∀ (l : List String) (s : String), s ∈ l → s.data <:+: (joinSpace l).data := by
  intro l
  induction l with
  | nil =>
    intro s hs
    simp at hs
  | cons a t ih =>
    intro s hs
    cases t with
    | nil =>
      have : s = a := by simpa using hs
      subst this
      exact ⟨[], [], by simp [joinSpace]⟩
    | cons b bs =>
      rcases List.mem_cons.mp hs with h1 | h2
      · subst h1
        show s.data <:+: (s ++ " " ++ joinSpace (b :: bs)).data
        rw [String.data_append, String.data_append]
        exact sub_app_right (sub_app_right ⟨[], [], by simp⟩)
      · show s.data <:+: (a ++ " " ++ joinSpace (b :: bs)).data
        rw [String.data_append, String.data_append]
        rw [List.append_assoc]
        exact sub_app_left (sub_app_left (ih s h2))

/-- Every word handed to `_pack_list` ends up inside one of the packed
name strings. -/
theorem packList_covers {data : List Word} {w : Word} (h : w ∈ data) :
    ∃ out ∈ packList data, w.string.data <:+: out.data := by
  rcases mem_splitRuns_of_mem h with ⟨run, hrun, hw⟩
  refine ⟨joinSpace (run.map Word.string), List.mem_map_of_mem _ hrun, ?_⟩
  exact mem_joinSpace_sub _ _ (List.mem_map_of_mem _ hw)

/-- Folding a pair of append-only accumulators is flat-mapping. -/
theorem foldl_body_bind {α β : Type} (body : List β × List β → α → List β × List β)
    (f g : α → List β) (hb : ∀ acc x, body acc x = (acc.1 ++ f x, acc.2 ++ g x)) :
    ∀ (l : List α) (a b : List β),
      l.foldl body (a, b) = (a ++ l.flatMap f, b ++ l.flatMap g) := by
  intro l
  induction l with
  | nil =>
    intro a b
    simp
  | cons x xs ih =>
    intro a b
    rw [List.foldl_cons, hb, ih]
    simp [List.append_assoc]

/-- Folding one append-only accumulator is flat-mapping. -/
theorem foldl_append_bind {α β : Type} (h : α → List β) :
    ∀ (l : List α) (a : List β),
      l.foldl (fun acc x => acc ++ h x) a = a ++ l.flatMap h := by
  intro l
  induction l with
  | nil =>
    intro a
    simp
  | cons x xs ih =>
    intro a
    rw [List.foldl_cons, ih]
    simp [List.append_assoc]

/-- The words the candidate at index `i` contributes to the reporters list:
its contribution when the reporter condition holds, nothing otherwise.
This is the claim-side reading of step 3 of the role-based classifier. -/
def repContrib (tax : Taxonomy) (s : Sentence) (i : Nat) : List Word :=
  match s.toks[i]? with
  | some t => if isReporterTok tax t then candContribution s i t else []
  | none => []

/-- The words the candidate at index `i` contributes to the entities list. -/
def entContrib (tax : Taxonomy) (s : Sentence) (i : Nat) : List Word :=
  match s.toks[i]? with
  | some t => if isReporterTok tax t then [] else candContribution s i t
  | none => []

/-- The per-sentence loop of the role-based classifier is the flat map of the
per-candidate contributions. -/
theorem roleExtractSentence_eq (tax : Taxonomy) (s : Sentence) :
    roleExtractSentence tax s
      = ((candIdxs tax s).flatMap (repContrib tax s),
         (candIdxs tax s).flatMap (entContrib tax s)) := by
  unfold roleExtractSentence
  rw [foldl_body_bind _ (repContrib tax s) (entContrib tax s) ?hb]
  · simp
  case hb =>
    intro acc i
    unfold repContrib entContrib
    cases s.toks[i]? with
    | none => simp
    | some t =>
      by_cases hr : isReporterTok tax t <;> simp [hr]

/-- The sentence loop of `_extract_reporters` is the flat map of the
per-sentence extraction over the selected sentences. -/
theorem roleExtract_eq (tax : Taxonomy) (doc : List Sentence) :
    roleExtract tax doc
      = ((selectedSentences tax doc).flatMap (fun s => (roleExtractSentence tax s).1),
         (selectedSentences tax doc).flatMap (fun s => (roleExtractSentence tax s).2)) := by
  unfold roleExtract
  rw [foldl_body_bind _ (fun s => (roleExtractSentence tax s).1)
    (fun s => (roleExtractSentence tax s).2) ?hb]
  · simp
  case hb =>
    intro acc s
    rfl

/-- Same shape lemma for the proximity strategy. -/
theorem spacyExtract_eq (tax : Taxonomy) (doc : List Sentence) :
    spacyExtract tax doc
      = ((selectedSentences tax doc).flatMap (fun s => (spacyExtractSentence tax s).1),
         (selectedSentences tax doc).flatMap (fun s => (spacyExtractSentence tax s).2)) := by
  unfold spacyExtract
  rw [foldl_body_bind _ (fun s => (spacyExtractSentence tax s).1)
    (fun s => (spacyExtractSentence tax s).2) ?hb]
  · simp
  case hb =>
    intro acc s
    rfl

/-- `_extract_sources` is the flat map of the per-sentence `SOURCE` matches
over the whole document. -/
theorem extractSources_eq (tax : Taxonomy) (doc : List Sentence) :
    extractSources tax doc = doc.flatMap (sourceToks tax) := by
  unfold extractSources
  rw [foldl_append_bind]
  simp

/-- A sentence is selected exactly when it holds a token tagged `RPTVRB` in
the taxonomy or literally equal to `según`. -/
theorem mem_selectedSentences {tax : Taxonomy} {doc : List Sentence} {s : Sentence} :
    s ∈ selectedSentences tax doc
      ↔ s ∈ doc ∧ ∃ t ∈ s.toks,
          taxHasTag tax t.string "RPTVRB" = true ∨ t.string = "según" := by
  unfold selectedSentences searchTrigger
  rw [List.mem_filter]
  have hiff : (!(List.filter (isTrigger tax) s.toks).isEmpty) = true
      ↔ ∃ t ∈ s.toks,
          taxHasTag tax t.string "RPTVRB" = true ∨ t.string = "según" := by
    rw [Bool.not_eq_true']
    constructor
    · intro hne
      have hnil : List.filter (isTrigger tax) s.toks ≠ [] := by
        intro hn
        rw [hn] at hne
        simp at hne
      rcases List.exists_mem_of_ne_nil _ hnil with ⟨t, ht⟩
      rcases List.mem_filter.mp ht with ⟨htoks, htrig⟩
      refine ⟨t, htoks, ?_⟩
      unfold isTrigger at htrig
      rw [Bool.or_eq_true] at htrig
      rcases htrig with h | h
      · exact Or.inl h
      · exact Or.inr (beq_iff_eq.mp h)
    · rintro ⟨t, htoks, hcond⟩
      have htrig : isTrigger tax t = true := by
        unfold isTrigger
        rw [Bool.or_eq_true]
        rcases hcond with h | h
        · exact Or.inl h
        · exact Or.inr (beq_iff_eq.mpr h)
      have hmem : t ∈ List.filter (isTrigger tax) s.toks :=
        List.mem_filter.mpr ⟨htoks, htrig⟩
      cases hfil : List.filter (isTrigger tax) s.toks with
      | nil =>
        rw [hfil] at hmem
        simp at hmem
      | cons a l =>
        simp
  constructor
  · rintro ⟨hs, h2⟩
    exact ⟨hs, hiff.mp h2⟩
  · rintro ⟨hs, h2⟩
    exact ⟨hs, hiff.mpr h2⟩

/-- C5: `remove_duplicates` drops a name iff at least one other distinct name
in the sequence contains it as a literal substring, deduplicates the
survivors by exact equality, and maps
{"Luís de Guindos", "Guindos", "Pedro Sánchez"} to exactly
{"Luís de Guindos", "Pedro Sánchez"}. -/
theorem remove_duplicates_contract :
    (∀ (l : List String) (x : String),
      x ∈ removeDuplicates l
        ↔ x ∈ l ∧ ¬ ∃ y ∈ l, y ≠ x ∧ x.data <:+: y.data)
    ∧ (∀ l : List String, (removeDuplicates l).Nodup)
    ∧ removeDuplicates ["Luís de Guindos", "Guindos", "Pedro Sánchez"]
        = ["Luís de Guindos", "Pedro Sánchez"] := by
  refine ⟨fun l x => mem_removeDuplicates, removeDuplicates_nodup, by decide⟩

/-- Witness for C5: the concrete drop decision derived from the contract. -/
theorem remove_duplicates_contract_witness :
    "Guindos" ∉ removeDuplicates ["Luís de Guindos", "Guindos", "Pedro Sánchez"] := by
  intro h
  have hm := (remove_duplicates_contract.1 ["Luís de Guindos", "Guindos", "Pedro Sánchez"] "Guindos").mp h
  exact hm.2 ⟨"Luís de Guindos", by decide, by decide, by decide⟩

/-- Two role-path sentences whose entity outputs keep a substring pair:
"Guindos" alone in one sentence, "Luís de Guindos" in another. -/
def c3SentA : Sentence :=
  { id := 0, string := "según Guindos",
    toks := [⟨"según", "IN", "según", none, none⟩,
             ⟨"Guindos", "NNP", "guindos", none, none⟩],
    ents := [] }

/-- Second sentence for the entity substring-pair scenario. -/
def c3SentB : Sentence :=
  { id := 1, string := "según Luís de Guindos",
    toks := [⟨"según", "IN", "según", none, none⟩,
             ⟨"Luís", "NNP", "luís", none, none⟩,
             ⟨"de", "IN", "de", none, none⟩,
             ⟨"Guindos", "NNP", "guindos", none, none⟩],
    ents := [] }

/-- C3 counterexample: `get_entities` applies no substring deduplication —
on this document it returns both "Guindos" and "Luís de Guindos", the first
a strict substring of the second, refuting the claim for the entities list. -/
theorem entities_substring_pair_counterexample :
    roleGetEntities (roleParseFrom ⟨[], [], []⟩ [] [c3SentA, c3SentB])
        = ["Guindos", "Luís de Guindos"]
    ∧ "Guindos" ≠ "Luís de Guindos"
    ∧ "Guindos".data <:+: "Luís de Guindos".data := by
  refine ⟨by decide, by decide, by decide⟩

/-- C3 (amended): only the reporters accessors pass through
`remove_duplicates`, so after deduplication no element of the returned
reporters list (either strategy) is a strict substring of another element of
that list; the sources and entities lists get no such guarantee. -/
theorem reporters_no_strict_substring :
    ∀ (stR : RoleState) (stS : SpacyState) (x y : String),
      (x ∈ roleGetReporters stR → y ∈ roleGetReporters stR → x ≠ y →
        ¬ x.data <:+: y.data)
      ∧ (x ∈ (spacyGetReporters stS).2 → y ∈ (spacyGetReporters stS).2 → x ≠ y →
        ¬ x.data <:+: y.data) := by
  intro stR stS x y
  constructor
  · intro hx hy hne
    simp only [roleGetReporters] at hx hy
    exact removeDuplicates_no_sub hx hy hne
  · intro hx hy hne
    simp only [spacyGetReporters] at hx hy
    exact removeDuplicates_no_sub hx hy hne

/-- Witness for the amended C3 at a concrete reporter state. -/
theorem reporters_no_strict_substring_witness :
    ¬ ("Guindos".data <:+: "Pedro Sánchez".data) :=
  (reporters_no_strict_substring ⟨[⟨"Guindos", 0⟩, ⟨"Pedro Sánchez", 5⟩], [], []⟩
    spacyInit "Guindos" "Pedro Sánchez").1 (by decide) (by decide) (by decide)

/-- C4: for both strategies the entities output is disjoint from the
reporters output — entities are the extracted proper nouns minus the
reporters, by set difference. -/
theorem entities_reporters_disjoint :
    ∀ (stR : RoleState) (stS : SpacyState) (x : String) (l : List String),
      (x ∈ roleGetEntities stR → x ∉ roleGetReporters stR)
      ∧ (spacyGetEntities ((spacyGetReporters stS).1) = some l → x ∈ l →
          x ∉ (spacyGetReporters stS).2) := by
  intro stR stS x l
  constructor
  · intro hx hmem
    simp only [roleGetEntities] at hx
    rw [List.mem_dedup, List.mem_filter, decide_eq_true_iff] at hx
    refine hx.2 ?_
    simp only [roleGetReporters] at hmem
    exact removeDuplicates_sub hmem
  · intro hsome hx hmem
    simp only [spacyGetReporters, spacyGetEntities] at hsome hmem
    rcases Option.some.inj hsome with rfl
    rw [List.mem_dedup, List.mem_filter, decide_eq_true_iff] at hx
    exact hx.2 hmem

/-- Witness for C4 at a concrete state. -/
theorem entities_reporters_disjoint_witness :
    "Ana" ∉ roleGetReporters ⟨[⟨"Bo", 0⟩], [⟨"Ana", 0⟩], []⟩ :=
  (entities_reporters_disjoint ⟨[⟨"Bo", 0⟩], [⟨"Ana", 0⟩], []⟩ spacyInit "Ana" []).1
    (by decide)

/-- C6: role-based strategy — exactly the trigger sentences are selected
(`RPTVRB`-tagged token or literal "según"); the candidates are the
proper-noun tokens not tagged `LOCATION`; the extraction classifies every
candidate as REPORTER when its chunk has a non-null role and its chunk's
governing-verb lemma is in the taxonomy, as ENTITY otherwise. -/
theorem role_selection_classification :
    ∀ (tax : Taxonomy) (doc : List Sentence),
      (∀ s : Sentence, s ∈ selectedSentences tax doc
          ↔ s ∈ doc ∧ ∃ t ∈ s.toks,
              taxHasTag tax t.string "RPTVRB" = true ∨ t.string = "según")
      ∧ (∀ (s : Sentence) (i : Nat), i ∈ candIdxs tax s
          ↔ ∃ t, s.toks[i]? = some t ∧ t.tag = "NNP"
              ∧ taxHasTag tax t.string "LOCATION" = false)
      ∧ roleExtract tax doc
          = ((selectedSentences tax doc).flatMap
              (fun s => (candIdxs tax s).flatMap (repContrib tax s)),
             (selectedSentences tax doc).flatMap
              (fun s => (candIdxs tax s).flatMap (entContrib tax s)))
      ∧ (∀ (s : Sentence) (i : Nat) (t : Tok), s.toks[i]? = some t →
          repContrib tax s i
              = (if isReporterTok tax t then candContribution s i t else [])
          ∧ entContrib tax s i
              = (if isReporterTok tax t then [] else candContribution s i t)
          ∧ (isReporterTok tax t = true
              ↔ t.chunkRole ≠ none
                ∧ ∃ l, t.chunkVerbLemma = some l ∧ taxContains tax l = true)) := by
  intro tax doc
  refine ⟨fun s => mem_selectedSentences, ?_, ?_, ?_⟩
  · intro s i
    unfold candIdxs
    rw [List.mem_filter, List.mem_range]
    constructor
    · rintro ⟨hlt, hany⟩
      cases hti : s.toks[i]? with
      | none =>
        rw [hti] at hany
        simp [Option.any] at hany
      | some t =>
        rw [hti] at hany
        have hc : isCandidate tax t = true := by simpa [Option.any] using hany
        unfold isCandidate at hc
        rw [Bool.and_eq_true, beq_iff_eq, Bool.not_eq_true'] at hc
        exact ⟨t, rfl, hc.1, hc.2⟩
    · rintro ⟨t, hti, htag, hloc⟩
      refine ⟨(List.getElem?_eq_some.mp hti).1, ?_⟩
      rw [hti]
      have hc : isCandidate tax t = true := by
        unfold isCandidate
        rw [Bool.and_eq_true, beq_iff_eq, Bool.not_eq_true']
        exact ⟨htag, hloc⟩
      simpa [Option.any] using hc
  · rw [roleExtract_eq]
    simp only [roleExtractSentence_eq]
  · intro s i t hti
    refine ⟨by simp only [repContrib, hti], by simp only [entContrib, hti], ?_⟩
    unfold isReporterTok
    rw [Bool.and_eq_true, Option.isSome_iff_ne_none]
    constructor
    · rintro ⟨hrole, hany⟩
      refine ⟨hrole, ?_⟩
      cases hv : t.chunkVerbLemma with
      | none =>
        rw [hv] at hany
        simp [Option.any] at hany
      | some l =>
        rw [hv] at hany
        exact ⟨l, rfl, by simpa [Option.any] using hany⟩
    · rintro ⟨hrole, l, hv, hl⟩
      refine ⟨hrole, ?_⟩
      rw [hv]
      simpa [Option.any] using hl

/-- A trigger-bearing sentence used to instantiate the selection lemma. -/
def c6Sent : Sentence :=
  { id := 0, string := "Ana dijo",
    toks := [⟨"Ana", "NNP", "ana", some "SBJ", some "decir"⟩,
             ⟨"dijo", "VB", "decir", none, none⟩],
    ents := [] }

/-- A small taxonomy holding the reported verb of `c6Sent`. -/
def c6Tax : Taxonomy := [⟨"dijo", "RPTVRB"⟩, ⟨"decir", "RPTVRB"⟩]

/-- Witness for C6: the concrete sentence is selected. -/
theorem role_selection_classification_witness :
    c6Sent ∈ selectedSentences c6Tax [c6Sent] :=
  ((role_selection_classification c6Tax [c6Sent]).1 c6Sent).mpr (by decide)

/-- The composed-noun test sentence of spec §8:
"Luís de Guindos afirmó que …", with the proper nouns in a subject chunk
governed by the reported verb. -/
def c7Sent : Sentence :=
  { id := 0, string := "Luís de Guindos afirmó que",
    toks := [⟨"Luís", "NNP", "luís", some "SBJ", some "afirmar"⟩,
             ⟨"de", "IN", "de", none, none⟩,
             ⟨"Guindos", "NNP", "guindos", some "SBJ", some "afirmar"⟩,
             ⟨"afirmó", "VB", "afirmar", none, none⟩],
    ents := [] }

/-- Taxonomy for the composed-noun scenario. -/
def c7Tax : Taxonomy := [⟨"afirmó", "RPTVRB"⟩, ⟨"afirmar", "RPTVRB"⟩]

/-- The grouping of `_pack_list` always opens with a run led by the first
word. -/
theorem splitRuns_cons_shape (v : Word) (l : List Word) :
    ∃ vs rest, splitRuns (v :: l) = (v :: vs) :: rest := by
  unfold splitRuns
  cases splitRuns l with
  | nil => exact ⟨[], [], rfl⟩
  | cons r rest =>
    cases r with
    | nil => exact ⟨[], [] :: rest, rfl⟩
    | cons u us =>
      by_cases h : u.index = v.index + 1
      · exact ⟨u :: us, rest, by simp [h]⟩
      · have hb : (u.index == v.index + 1) = false := by simp [h]
        exact ⟨[], (u :: us) :: rest, by simp [hb]⟩

/-- C7: `_is_composed_noun` holds exactly when the previous token is one of
"de"/"en"/"del" and the token before that is a proper noun; a composed
candidate contributes its preceding token immediately before itself; the
packing stage joins consecutive-index words with one space and starts a new
name at a gap, so a composed name is reassembled (concrete run below). -/
theorem composed_noun_prefix_and_packing :
    (∀ (s : Sentence) (i : Nat),
      isComposedNoun s i = true
        ↔ 2 ≤ i ∧ ∃ p pp, s.toks[i - 1]? = some p ∧ s.toks[i - 2]? = some pp
            ∧ (p.string = "de" ∨ p.string = "en" ∨ p.string = "del")
            ∧ pp.tag = "NNP")
    ∧ (∀ (s : Sentence) (i : Nat) (t p : Tok),
        s.toks[i - 1]? = some p → isComposedNoun s i = true →
        candContribution s i t = [⟨p.string, i - 1⟩, ⟨t.string, i⟩])
    ∧ (∀ (w v : Word) (l : List Word),
        (v.index = w.index + 1 →
          ∃ vs rest, splitRuns (v :: l) = (v :: vs) :: rest
            ∧ packList (w :: v :: l)
                = (w.string ++ " " ++ joinSpace ((v :: vs).map Word.string))
                  :: rest.map (fun run => joinSpace (run.map Word.string)))
        ∧ (v.index ≠ w.index + 1 →
          packList (w :: v :: l) = w.string :: packList (v :: l)))
    ∧ roleGetReporters (roleParseFrom ⟨[], [], []⟩ c7Tax [c7Sent])
        = ["Luís de Guindos"] := by
  refine ⟨?_, ?_, ?_, by decide⟩
  · intro s i
    unfold isComposedNoun
    by_cases h2 : 2 ≤ i
    · rw [if_pos h2]
      cases hp : s.toks[i - 1]? with
      | none =>
        simp only [hp]
        constructor
        · intro h
          simp at h
        · rintro ⟨-, p, pp, hps, -⟩
          simp at hps
      | some p =>
        cases hpp : s.toks[i - 2]? with
        | none =>
          simp only [hp, hpp]
          constructor
          · intro h
            simp at h
          · rintro ⟨-, p', pp, -, hpps, -⟩
            simp at hpps
        | some pp =>
          simp only [hp, hpp]
          rw [Bool.and_eq_true, Bool.or_eq_true, Bool.or_eq_true,
            beq_iff_eq, beq_iff_eq, beq_iff_eq, beq_iff_eq]
          constructor
          · rintro ⟨hstr, htag⟩
            exact ⟨h2, p, pp, rfl, rfl, by tauto, htag⟩
          · rintro ⟨-, p', pp', hp', hpp', hstr, htag⟩
            rcases Option.some.inj hp' with rfl
            rcases Option.some.inj hpp' with rfl
            exact ⟨by tauto, htag⟩
    · rw [if_neg h2]
      constructor
      · intro h
        simp at h
      · rintro ⟨h, -⟩
        exact absurd h h2
  · intro s i t p hp hcomp
    unfold candContribution
    rw [if_pos hcomp, hp]
    rfl
  · intro w v l
    constructor
    · intro hidx
      rcases splitRuns_cons_shape v l with ⟨vs, rest, hshape⟩
      refine ⟨vs, rest, hshape, ?_⟩
      have hsplit : splitRuns (w :: v :: l) = (w :: v :: vs) :: rest := by
        unfold splitRuns
        rw [hshape]
        simp [hidx]
      unfold packList
      rw [hsplit]
      simp [joinSpace]
    · intro hidx
      rcases splitRuns_cons_shape v l with ⟨vs, rest, hshape⟩
      have hb : (v.index == w.index + 1) = false := by simp [hidx]
      have hsplit : splitRuns (w :: v :: l) = [w] :: (v :: vs) :: rest := by
        unfold splitRuns
        rw [hshape]
        simp [hb]
      unfold packList
      rw [hsplit, hshape]
      simp [joinSpace]

/-- Witness for C7: the composed-noun test at the concrete sentence. -/
theorem composed_noun_prefix_and_packing_witness :
    isComposedNoun c7Sent 2 = true :=
  (composed_noun_prefix_and_packing.1 c7Sent 2).mpr
    ⟨by decide, ⟨"de", "IN", "de", none, none⟩,
      ⟨"Luís", "NNP", "luís", some "SBJ", some "afirmar"⟩,
      by decide, by decide, by decide, by decide⟩

/-- C8: source extraction runs the `SOURCE` pattern over every sentence of
the parsed text — membership of a sentence among the reported-speech
(trigger) sentences is not required — and every token tagged `SOURCE`
reaches the list returned by `get_sources` (inside its packed name). -/
theorem sources_all_sentences :
    ∀ (tax : Taxonomy) (doc : List Sentence),
      extractSources tax doc = doc.flatMap (sourceToks tax)
      ∧ (∀ (s : Sentence) (i : Nat) (t : Tok),
          s ∈ doc → s.toks[i]? = some t →
          taxHasTag tax t.string "SOURCE" = true →
          ∃ out ∈ roleGetSources (roleParseFrom ⟨[], [], []⟩ tax doc),
            t.string.data <:+: out.data) := by
  intro tax doc
  refine ⟨extractSources_eq tax doc, ?_⟩
  intro s i t hs hti htag
  have hw : (⟨t.string, i⟩ : Word) ∈ extractSources tax doc := by
    rw [extractSources_eq, List.mem_flatMap]
    refine ⟨s, hs, ?_⟩
    unfold sourceToks
    rw [List.mem_filterMap]
    refine ⟨i, ?_, ?_⟩
    · rw [List.mem_range]
      exact (List.getElem?_eq_some.mp hti).1
    · rw [hti]
      simp [htag]
  have hout : roleGetSources (roleParseFrom ⟨[], [], []⟩ tax doc)
      = packList (extractSources tax doc) := rfl
  rw [hout]
  exact packList_covers hw

/-- A taxonomy with one `SOURCE` institution. -/
def c8Tax : Taxonomy := [⟨"EFE", "SOURCE"⟩]

/-- A sentence with a `SOURCE` token and no reported-speech trigger. -/
def c8Sent : Sentence :=
  { id := 0, string := "EFE informa",
    toks := [⟨"EFE", "NNP", "efe", none, none⟩,
             ⟨"informa", "VB", "informar", none, none⟩],
    ents := [] }

/-- Witness for C8: the `SOURCE` token of a trigger-free sentence is
returned by `get_sources`. -/
theorem sources_all_sentences_witness :
    ∃ out ∈ roleGetSources (roleParseFrom ⟨[], [], []⟩ c8Tax [c8Sent]),
      "EFE".data <:+: out.data :=
  (sources_all_sentences c8Tax [c8Sent]).2 c8Sent 0
    ⟨"EFE", "NNP", "efe", none, none⟩ (by decide) (by decide) (by decide)

/-- Taxonomy for the proximity-threshold scenario. -/
def c1Tax : Taxonomy := [⟨"dijo", "RPTVRB"⟩]

/-- Raw sentence string placing the only PER entity ("Ana") 150 characters
after the trigger ("dijo", at position 0) and a MISC entity ("Madrid") 50
characters after it. -/
def c1Str : String :=
  "dijo " ++ ⟨List.replicate 45 'x'⟩ ++ "Madrid" ++ ⟨List.replicate 94 'x'⟩ ++ "Ana"

/-- The proximity-threshold scenario sentence: one trigger token and the two
NER spans in recognition order PER first, MISC second. -/
def c1Sent : Sentence :=
  { id := 0, string := c1Str,
    toks := [⟨"dijo", "VB", "decir", none, none⟩],
    ents := [("Ana", "PER"), ("Madrid", "MISC")] }

/-- C1: the threshold guard of the proximity strategy compares
`abs(dist)` of the **last** entity of the NER loop (here "Madrid", offset
50) instead of `shortest_dist` (the tracked PER/ORG minimum, here 150), so a
reporter is emitted although the closest PER/ORG entity lies 150 ≥ 100
characters from the trigger — refuting the claimed threshold behaviour on
the minimum offset. -/
theorem proximity_threshold_bug :
    (spacyExtractSentence c1Tax c1Sent).1 = [⟨"Ana", 0⟩]
    ∧ (getDistance "dijo" "Ana" c1Sent.string).natAbs = 150
    ∧ (getDistance "dijo" "Madrid" c1Sent.string).natAbs = 50
    ∧ (∀ e ∈ c1Sent.ents, (e.2 = "PER" ∨ e.2 = "ORG") → e.1 = "Ana")
    ∧ spacyExtract c1Tax [c1Sent]
        = ([⟨"Ana", 0⟩], [⟨"Ana", 0⟩, ⟨"Madrid", 0⟩]) := by
  refine ⟨by decide, by decide, by decide, by decide, by decide⟩

/-- C2: `self.__has_taxonomy = True` creates an *instance* attribute while
the class attribute read by a later, freshly constructed instance stays
`False`, so constructing a second extractor appends all term lists to the
process-wide taxonomy again; only a second call on the *same* object is a
no-op.  This refutes the claimed once-per-process loading. -/
theorem taxonomy_reload_bug :
    (initExtractor [] ["dijo"] [] []).2 = [⟨"dijo", "RPTVRB"⟩]
    ∧ (initExtractor (initExtractor [] ["dijo"] [] []).2 ["dijo"] [] []).2
        = [⟨"dijo", "RPTVRB"⟩, ⟨"dijo", "RPTVRB"⟩]
    ∧ (createTaxonomy (initExtractor [] ["dijo"] [] []).1
        (initExtractor [] ["dijo"] [] []).2 ["dijo"] [] []).2
        = [⟨"dijo", "RPTVRB"⟩] := by
  refine ⟨by decide, by decide, by decide⟩

/-- A sentence that yields a nonempty entities list for the proximity
strategy. -/
def c9Sent : Sentence :=
  { id := 0, string := "según Ana",
    toks := [⟨"según", "IN", "según", none, none⟩],
    ents := [("Ana", "PER")] }

/-- C9 counterexample: on a fresh `SpacyReporterExtractor`, after `parse` of
a perfectly normal document, calling `get_entities` before `get_reporters`
fails (`AttributeError` reading `self.reporters_out`, modelled `none`) even
though entities were extracted — the accessors do not succeed in every
order. -/
theorem accessor_order_counterexample :
    spacyGetEntities (spacyParseFrom spacyInit [] [c9Sent]) = none
    ∧ (spacyParseFrom spacyInit [] [c9Sent]).entities ≠ [] := by
  refine ⟨rfl, by decide⟩

/-- C9 (amended): `get_reporters` and `get_sources` always succeed, and for
the role-based extractor all accessors are pure functions of the parsed
state; but the spacy `get_entities` succeeds exactly when `reporters_out`
exists, which `parse` never creates — it succeeds after `get_reporters` has
run at least once on the instance. -/
theorem accessor_order_amended :
    ∀ (stS : SpacyState) (tax : Taxonomy) (doc : List Sentence),
      ((spacyGetEntities stS).isSome ↔ stS.reportersOut.isSome)
      ∧ (spacyGetEntities ((spacyGetReporters stS).1)).isSome
      ∧ (spacyParseFrom stS tax doc).reportersOut = stS.reportersOut := by
  intro stS tax doc
  refine ⟨?_, ?_, rfl⟩
  · cases hro : stS.reportersOut with
    | none => simp [spacyGetEntities, hro]
    | some r => simp [spacyGetEntities, hro]
  · simp [spacyGetReporters, spacyGetEntities]

/-- Witness for the amended C9. -/
theorem accessor_order_amended_witness :
    (spacyGetEntities ((spacyGetReporters spacyInit).1)).isSome :=
  (accessor_order_amended spacyInit [] []).2.1

/-- C10 counterexample: even for the empty input text, the spacy
`get_entities` accessor called right after `parse("")` on a fresh instance
does not return an empty sequence — it fails reading `reporters_out`. -/
theorem empty_text_entities_counterexample :
    spacyGetEntities (spacyParseText (fun _ => []) spacyInit [] "") = none := rfl

/-- C10 (amended): `parse("")` succeeds, rebuilds the state independently of
the previous one, and the accessors return empty sequences — for the spacy
extractor, `get_entities` provided `get_reporters` has run. -/
theorem empty_text_amended :
    ∀ (analyze : String → List Sentence) (stR : RoleState) (stS : SpacyState)
      (tax : Taxonomy),
      analyze "" = [] →
        roleGetReporters (roleParseText analyze stR tax "") = []
        ∧ roleGetEntities (roleParseText analyze stR tax "") = []
        ∧ roleGetSources (roleParseText analyze stR tax "") = []
        ∧ (∀ stR' : RoleState,
            roleParseText analyze stR' tax "" = roleParseText analyze stR tax "")
        ∧ (spacyGetReporters (spacyParseText analyze stS tax "")).2 = []
        ∧ spacyGetSources (spacyParseText analyze stS tax "") = []
        ∧ spacyGetEntities
            ((spacyGetReporters (spacyParseText analyze stS tax "")).1) = some [] := by
  intro analyze stR stS tax h
  have hdoc : analyze (cleanText "") = [] := by
    rw [show cleanText "" = "" from rfl, h]
  unfold roleParseText spacyParseText
  rw [hdoc]
  exact ⟨rfl, rfl, rfl, fun stR' => rfl, rfl, rfl, rfl⟩

/-- Witness for the amended C10. -/
theorem empty_text_amended_witness :
    roleGetReporters (roleParseText (fun _ => []) ⟨[], [], []⟩ [] "") = [] :=
  (empty_text_amended (fun _ => []) ⟨[], [], []⟩ spacyInit [] rfl).1
